import Mathlib

/-!
Verification of the tool-dispatch and result-normalization layer of the
mcp-odbc-server repository (src/main.ts), shallowly embedded in Lean 4.

Modelling choices:
* A JavaScript scalar cell value is `Value` (null, boolean, integer, string).
  The ODBC driver hands back rows of scalars; `undefined` never occurs in
  driver rows (NULL columns arrive as JS `null`), so it is not modelled.
  JS numbers are modelled as integers; no claim depends on float formatting.
* A driver row (JS object) is `DbRecord`, an ordered association list from
  column name to `Value`; property access is first-match lookup.
* The odbc module is an oracle `Odbc`: `connect` maps a connection string to
  either an error (the serialized form of the thrown value) or a `Connection`,
  itself an oracle mapping the arguments of `query`/`tables`/`columns` calls
  to results.  `closeFails` says whether `connection.close()` throws.
* Every handler in main.ts has the exact same shape
  `try (connect; body; return ok-envelope) catch (return error-envelope)
   finally (if (connection) try close catch ignore)`;
  `runTool` embeds that shape once, recording a trace of events so the
  close-exactly-once property is observable.  A thrown JS error is an
  `Except.error` carrying the string the handler would serialize.
-/

set_option maxRecDepth 4000

namespace McpOdbc

/-- A JavaScript scalar value as it appears in an ODBC result row. -/
inductive Value where
  | vNull : Value
  | vBool : Bool → Value
  | vNum : Int → Value
  | vStr : String → Value
deriving DecidableEq, Repr

/-- A driver row: a JS object, i.e. an ordered list of named scalar fields. -/
abbrev DbRecord := List (String × Value)

/-- A result set: the ordered list of rows a driver call returns. -/
abbrev ResultSet := List DbRecord

/-- JS property access `row[col]`: first matching key, `undefined` = `none`. -/
def lookupField (r : DbRecord) (k : String) : Option Value :=
  match r with
  | [] => none
  | (k2, v) :: rest => if k2 = k then some v else lookupField rest k

/-- JS truthiness of a scalar: null, false, 0 and "" are falsy. -/
def jsTruthy : Value → Bool
  | Value.vNull => false
  | Value.vBool b => b
  | Value.vNum n => decide (n ≠ 0)
  | Value.vStr s => decide (s ≠ "")

/-- JS truthiness of `row[col]`, where a missing field (undefined) is falsy. -/
def jsTruthyOpt : Option Value → Bool
  | none => false
  | some v => jsTruthy v

/-- Decimal digit character. -/
def digitChar (d : Nat) : Char := Char.ofNat (48 + d)

/-- Decimal digits of a natural number, most significant first; `fuel`
bounds the recursion depth (any `fuel > n` is enough). -/
def natCharsAux : Nat → Nat → List Char
  | 0, _ => []
  | fuel + 1, n =>
    if n < 10 then [digitChar n]
    else natCharsAux fuel (n / 10) ++ [digitChar (n % 10)]

/-- Decimal representation of a natural number. -/
def natChars (n : Nat) : List Char := natCharsAux (n + 1) n

/-- JS `String(n)` for an integer. -/
def intChars (n : Int) : List Char :=
  if n < 0 then '-' :: natChars n.natAbs else natChars n.natAbs

/-- JS `String(v)` for a scalar value. -/
def jsToString : Value → String
  | Value.vNull => "null"
  | Value.vBool true => "true"
  | Value.vBool false => "false"
  | Value.vNum n => String.mk (intChars n)
  | Value.vStr s => s

/-- One Markdown cell of `dataToMD`: the source renders
`String(row[col] || '')`, so any falsy value (null, undefined, false, 0,
empty string) becomes the empty string. -/
def mdCell (row : DbRecord) (col : String) : String :=
  match lookupField row col with
  | some v => if jsTruthy v then jsToString v else ""
  | none => ""

/-- Embedding of `dataToMD` from src/main.ts: header from the first row's
keys, a `---` separator row, then one row per record built from `mdCell`. -/
def dataToMD (data : ResultSet) : String :=
  match data with
  | [] => "No results found."
  | first :: _ =>
    let columns := first.map Prod.fst
    let header := "| " ++ String.intercalate " | " columns ++ " |\n"
    let sep := "| " ++ String.intercalate " | " (columns.map (fun _ => "---")) ++ " |\n"
    data.foldl
      (fun acc row =>
        acc ++ "| " ++ String.intercalate " | " (columns.map (fun col => mdCell row col)) ++ " |\n")
      (header ++ sep)

/-- JSON string escaping of one character, as `JSON.stringify` performs it:
quote and backslash get a backslash escape, the five named control
characters get their short escapes, other control characters become
`\u00XX` (lowercase hex), everything else is emitted raw. -/
def escChar (c : Char) : List Char :=
  if c = '"' then ['\\', '"']
  else if c = '\\' then ['\\', '\\']
  else if c = Char.ofNat 8 then ['\\', 'b']
  else if c = Char.ofNat 9 then ['\\', 't']
  else if c = Char.ofNat 10 then ['\\', 'n']
  else if c = Char.ofNat 12 then ['\\', 'f']
  else if c = Char.ofNat 13 then ['\\', 'r']
  else if c.toNat < 32 then
    ['\\', 'u', '0', '0',
      (if c.toNat / 16 < 10 then Char.ofNat (48 + c.toNat / 16) else Char.ofNat (87 + c.toNat / 16)),
      (if c.toNat % 16 < 10 then Char.ofNat (48 + c.toNat % 16) else Char.ofNat (87 + c.toNat % 16))]
  else [c]

/-- JSON encoding of a string, including the surrounding quotes. -/
def quoteChars (s : String) : List Char :=
  '"' :: (s.data.flatMap escChar) ++ ['"']

/-- Left brace character (written numerically throughout this file). -/
def lbrace : Char := Char.ofNat 123

/-- Right brace character. -/
def rbrace : Char := Char.ofNat 125

/-- Compact JSON encoding of a scalar value, as `JSON.stringify` emits it. -/
def stringifyValue : Value → List Char
  | Value.vNull => "null".data
  | Value.vBool true => "true".data
  | Value.vBool false => "false".data
  | Value.vNum n => intChars n
  | Value.vStr s => quoteChars s

/-- Join chunks with a separator (the shape `JSON.stringify` and
`Array.prototype.join` produce: no leading, trailing, or doubled separator). -/
def joinSep (sep : List Char) : List (List Char) → List Char
  | [] => []
  | [x] => x
  | x :: y :: t => x ++ sep ++ joinSep sep (y :: t)

/-- Compact JSON encoding of one row, `JSON.stringify(row)`. -/
def stringifyRecordChars (r : DbRecord) : List Char :=
  lbrace :: joinSep [','] (r.map (fun kv => quoteChars kv.1 ++ ':' :: stringifyValue kv.2)) ++ [rbrace]

/-- The `jsonl` branch of every handler:
`data.map(row => JSON.stringify(row)).join("\n")`. -/
def formatJsonl (data : ResultSet) : String :=
  String.mk (joinSep ['\n'] (data.map stringifyRecordChars))

/-- Indentation of `n` spaces. -/
def indentSp (n : Nat) : List Char := List.replicate n ' '

/-- One field line of a pretty-printed row at array depth:
four spaces, the quoted key, a colon and a space, then the value. -/
def prettyField (kv : String × Value) : List Char :=
  indentSp 4 ++ quoteChars kv.1 ++ ':' :: ' ' :: stringifyValue kv.2

/-- Pretty-printed row at array depth, as `JSON.stringify(data, null, 2)`
lays it out: an empty object stays on one line, otherwise fields are
separated by a comma and newline and the closing brace is indented two. -/
def prettyRecord (r : DbRecord) : List Char :=
  match r with
  | [] => [lbrace, rbrace]
  | _ => lbrace :: '\n' :: joinSep [',', '\n'] (r.map prettyField) ++ '\n' :: indentSp 2 ++ [rbrace]

/-- The full output of `JSON.stringify(data, null, 2)` for a list of rows:
`[]` for the empty list, otherwise elements indented two, separated by a
comma and newline, closed by a newline and bracket. -/
def prettyArrayChars (data : ResultSet) : List Char :=
  match data with
  | [] => ['[', ']']
  | _ => '[' :: '\n' ::
      joinSep [',', '\n'] (data.map (fun r => indentSp 2 ++ prettyRecord r)) ++ '\n' :: [']']

/-- The `json` branch of every handler: `JSON.stringify(data, null, 2)`. -/
def formatJson (data : ResultSet) : String :=
  String.mk (prettyArrayChars data)

/-- The format dispatch chain shared verbatim by every handler in
src/main.ts: `'jsonl' === format`, else `'md' === format`, else json. -/
def formatResult (format : String) (data : ResultSet) : String :=
  if format = "jsonl" then formatJsonl data
  else if format = "md" then dataToMD data
  else formatJson data

/-- An MCP content item, `\x7b type: "text", text \x7d`. -/
structure ContentItem where
  type : String
  text : String
deriving DecidableEq, Repr

/-- The envelope every tool handler returns. -/
structure Envelope where
  content : List ContentItem
  isError : Bool
deriving DecidableEq, Repr

/-- The error envelope each catch block builds:
`content: [text: "Error: " + JSON.stringify(error, null, 2)], isError: true`;
the argument is the already-serialized error. -/
def errEnvelope (e : String) : Envelope :=
  { content := [{ type := "text", text := "Error: " ++ e }], isError := true }

/-- The success envelope: one text content item, not an error. -/
def okEnvelope (t : String) : Envelope :=
  { content := [{ type := "text", text := t }], isError := false }

/-- Observable driver-side events of one handler invocation. -/
inductive DbEvent where
  | connectEv : DbEvent
  | closeEv : Bool → DbEvent
deriving DecidableEq, Repr

/-- Oracle model of an open `odbc.Connection`: each method maps its exact
argument tuple to either a result set or a thrown error (serialized). -/
structure Connection where
  query : String → Except String ResultSet
  queryParams : String → List Value → Except String ResultSet
  tables : Option String → Option String → Option String → Option String → Except String ResultSet
  columns : Option String → Option String → Option String → Option String → Except String ResultSet

/-- Oracle model of the odbc module for one invocation. -/
structure Odbc where
  connect : String → Except String Connection
  closeFails : Connection → Bool

/-- The connection string every handler assembles:
`DSN=${dsn};UID=${user};PWD=${password}` (template braces elided). -/
def connStr (dsn user password : String) : String :=
  "DSN=" ++ dsn ++ ";UID=" ++ user ++ ";PWD=" ++ password

/-- Embedding of the `try/catch/finally` shape shared by every handler in
src/main.ts.  If `connect` throws, the catch produces the error envelope and
the finally block skips close (the `connection` variable is still
undefined).  Otherwise the body runs, its outcome is wrapped, and the
finally block closes exactly once, its own failure swallowed by the inner
`try ... catch (_) \x7b\x7d` — the trace records the close and whether it
failed, but the envelope is computed before it and never revised. -/
def runTool (o : Odbc) (cs : String) (body : Connection → Except String String) :
    Envelope × List DbEvent :=
  match o.connect cs with
  | Except.error e => (errEnvelope e, [])
  | Except.ok conn =>
    let env :=
      match body conn with
      | Except.ok t => okEnvelope t
      | Except.error e => errEnvelope e
    (env, [DbEvent.connectEv, DbEvent.closeEv (o.closeFails conn)])

/-- Number of close calls in a trace. -/
def closeCount (tr : List DbEvent) : Nat :=
  tr.countP (fun e => match e with | DbEvent.closeEv _ => true | _ => false)

/-- Embedding of `supportsCatalogs` from src/main.ts: probe
`connection.tables('%', "", "", null)`; true exactly when the call succeeds
with at least one row whose `TABLE_QUALIFIER` field is truthy; any thrown
error yields false. -/
def supportsCatalogs (c : Connection) : Bool :=
  match c.tables (some "%") (some "") (some "") none with
  | Except.ok cats =>
    match cats with
    | [] => false
    | first :: _ => jsTruthyOpt (lookupField first "TABLE_QUALIFIER")
  | Except.error _ => false

/-- JS `s.startsWith(p)` on character lists. -/
def startsWithCh : List Char → List Char → Bool
  | _, [] => true
  | [], _ :: _ => false
  | c :: cs, p :: ps => c = p && startsWithCh cs ps

/-- JS substring containment on character lists. -/
def containsCh : List Char → List Char → Bool
  | [], p => startsWithCh [] p
  | c :: cs, p => startsWithCh (c :: cs) p || containsCh cs p

/-- JS `s.includes(q)`: case-sensitive substring containment. -/
def jsIncludes (s q : String) : Bool := containsCh s.data q.data

/-- JS `row.TABLE_NAME` followed by `.includes`: a missing or non-string
field makes the property call throw a TypeError. -/
def getTableName (row : DbRecord) : Except String String :=
  match lookupField row "TABLE_NAME" with
  | some (Value.vStr s) => Except.ok s
  | _ => Except.error "TypeError"

/-- Embedding of the row loop of the `filter_table_names` handler: keep, in
order, the rows whose `TABLE_NAME` contains `q`; a row without a string
`TABLE_NAME` throws out of the loop. -/
def filterTablesByName (q : String) : List DbRecord → Except String (List DbRecord)
  | [] => Except.ok []
  | row :: rest => do
    let name ← getTableName row
    let keep := jsIncludes name q
    let tail ← filterTablesByName q rest
    pure (if keep then row :: tail else tail)

/-- JS `schema || '%'`: null/undefined and the empty string fall back. -/
def jsOrWildcard : Option String → String
  | none => "%"
  | some s => if s = "" then "%" else s

/-- Body of the `query_database` helper of src/main.ts (lines 310-334):
run the query and format the rows. -/
def query_database_body (query format : String) (c : Connection) : Except String String :=
  (c.query query).map (formatResult format)

/-- Embedding of the `query_database` helper function of src/main.ts. -/
def query_database (o : Odbc) (query user password dsn format : String) :
    Envelope × List DbEvent :=
  runTool o (connStr dsn user password) (query_database_body query format)

/-- Body of the `describe_table` handler: probe catalogs, then place the
caller's schema in the catalog slot if catalog-capable, else in the schema
slot, and format the returned column rows unchanged. -/
def describe_table_body (schema table format : String) (c : Connection) : Except String String :=
  let has_catalogs := supportsCatalogs c
  ((if has_catalogs then c.columns (some schema) none (some table) none
    else c.columns none (some schema) (some table) none).map (formatResult format))

/-- Embedding of the `describe_table` handler of src/main.ts. -/
def describe_table (o : Odbc) (schema table user password dsn format : String) :
    Envelope × List DbEvent :=
  runTool o (connStr dsn user password) (describe_table_body schema table format)

/-- Body of the `filter_table_names` handler: probe catalogs, default the
schema filter to the wildcard, fetch all tables of that schema, keep the
rows whose name contains `q`, format. -/
def filter_table_names_body (q : String) (schema : Option String) (format : String)
    (c : Connection) : Except String String := do
  let has_catalogs := supportsCatalogs c
  let schema2 := jsOrWildcard schema
  let data ←
    if has_catalogs then c.tables (some schema2) none (some "%") none
    else c.tables none (some schema2) (some "%") none
  let tablesInfo ← filterTablesByName q data
  pure (formatResult format tablesInfo)

/-- Embedding of the `filter_table_names` handler of src/main.ts. -/
def filter_table_names (o : Odbc) (q : String) (schema : Option String)
    (user password dsn format : String) : Envelope × List DbEvent :=
  runTool o (connStr dsn user password) (filter_table_names_body q schema format)

/-- Single-quote character, for SQL text. -/
def sqChar : String := String.singleton (Char.ofNat 39)

/-- The fixed SQL text of the `virt_get_schemas` handler. -/
def virtSchemasQuery : String :=
  "SELECT DISTINCT name_part(KEY_TABLE,0) AS CATALOG_NAME FROM DB.DBA.SYS_KEYS where __any_grants(KEY_TABLE) and table_type (KEY_TABLE) = "
    ++ sqChar ++ "TABLE" ++ sqChar ++ " and KEY_IS_MAIN = 1 and KEY_MIGRATE_TO is NULL"

/-- Embedding of the `virt_get_schemas` handler of src/main.ts: one fixed
query against Virtuoso system tables, then the shared format chain. -/
def virt_get_schemas (o : Odbc) (user password dsn format : String) :
    Envelope × List DbEvent :=
  runTool o (connStr dsn user password)
    (fun c => (c.query virtSchemasQuery).map (formatResult format))

/-! ### Parsers

The "parses back" clauses of the spec are formalized against the following
parsers, each a left inverse of the corresponding serializer above: a
record per jsonl line re-parses to the original row, and the pretty JSON
array re-parses to the original result set.  Recursions that consume an
unbounded number of characters per step carry explicit fuel; the top-level
wrappers hand them the input length, which the round-trip lemmas show is
always sufficient. -/

/-- Value of a lowercase hex digit character. -/
def hexVal (c : Char) : Option Nat :=
  if 48 ≤ c.toNat ∧ c.toNat ≤ 57 then some (c.toNat - 48)
  else if 97 ≤ c.toNat ∧ c.toNat ≤ 102 then some (c.toNat - 87)
  else none

/-- Value of a decimal digit character. -/
def digitVal (c : Char) : Option Nat :=
  if 48 ≤ c.toNat ∧ c.toNat ≤ 57 then some (c.toNat - 48) else none

/-- Parse the body of a JSON string up to and including the closing quote,
undoing `escChar`; returns the decoded characters and the rest of the
input.  One escape sequence is consumed per fuel unit. -/
def parseStrAux : Nat → List Char → Option (List Char × List Char)
  | 0, _ => none
  | fuel + 1, l =>
    match l with
    | [] => none
    | c :: rest =>
      if c = '"' then some ([], rest)
      else if c = '\\' then
        match rest with
        | [] => none
        | e :: rest2 =>
          if e = '"' then (fun p => ('"' :: p.1, p.2)) <$> parseStrAux fuel rest2
          else if e = '\\' then (fun p => ('\\' :: p.1, p.2)) <$> parseStrAux fuel rest2
          else if e = 'b' then (fun p => (Char.ofNat 8 :: p.1, p.2)) <$> parseStrAux fuel rest2
          else if e = 't' then (fun p => (Char.ofNat 9 :: p.1, p.2)) <$> parseStrAux fuel rest2
          else if e = 'n' then (fun p => (Char.ofNat 10 :: p.1, p.2)) <$> parseStrAux fuel rest2
          else if e = 'f' then (fun p => (Char.ofNat 12 :: p.1, p.2)) <$> parseStrAux fuel rest2
          else if e = 'r' then (fun p => (Char.ofNat 13 :: p.1, p.2)) <$> parseStrAux fuel rest2
          else if e = 'u' then
            match rest2 with
            | h1 :: h2 :: h3 :: h4 :: rest3 =>
              match hexVal h1, hexVal h2, hexVal h3, hexVal h4 with
              | some v1, some v2, some v3, some v4 =>
                (fun p => (Char.ofNat (((v1 * 16 + v2) * 16 + v3) * 16 + v4) :: p.1, p.2)) <$>
                  parseStrAux fuel rest3
              | _, _, _, _ => none
            | _ => none
          else none
      else (fun p => (c :: p.1, p.2)) <$> parseStrAux fuel rest

/-- Parse a JSON string body, fuel derived from the input length. -/
def parseStrBody (l : List Char) : Option (List Char × List Char) :=
  parseStrAux (l.length + 1) l

/-- Consume a run of decimal digits, accumulating their value. -/
def parseDigits (acc : Nat) : List Char → Nat × List Char
  | [] => (acc, [])
  | c :: rest =>
    match digitVal c with
    | some d => parseDigits (acc * 10 + d) rest
    | none => (acc, c :: rest)

/-- Parse a natural number: at least one leading digit. -/
def parseNat (l : List Char) : Option (Nat × List Char) :=
  match l with
  | c :: _ => if (digitVal c).isSome then some (parseDigits 0 l) else none
  | [] => none

/-- Parse an optionally negated integer. -/
def parseIntCh (l : List Char) : Option (Int × List Char) :=
  match l with
  | c :: rest =>
    if c = '-' then (fun p => (-(p.1 : Int), p.2)) <$> parseNat rest
    else (fun p => ((p.1 : Int), p.2)) <$> parseNat (c :: rest)
  | [] => none

/-- Parse one JSON scalar value. -/
def parseValue (l : List Char) : Option (Value × List Char) :=
  if l.take 4 = "null".data then some (Value.vNull, l.drop 4)
  else if l.take 4 = "true".data then some (Value.vBool true, l.drop 4)
  else if l.take 5 = "false".data then some (Value.vBool false, l.drop 5)
  else
    match l with
    | c :: rest =>
      if c = '"' then (fun p => (Value.vStr (String.mk p.1), p.2)) <$> parseStrBody rest
      else (fun p => (Value.vNum p.1, p.2)) <$> parseIntCh (c :: rest)
    | [] => none

/-- Parse one compact `"key":value` field. -/
def parseFieldCompact (l : List Char) : Option ((String × Value) × List Char) :=
  match l with
  | c :: rest =>
    if c = '"' then
      match parseStrBody rest with
      | some (k, r1) =>
        match r1 with
        | c2 :: r2 =>
          if c2 = ':' then (fun p => ((String.mk k, p.1), p.2)) <$> parseValue r2
          else none
        | [] => none
      | none => none
    else none
  | [] => none

/-- Parse a nonempty comma-separated compact field list up to and
including the closing brace; one field per fuel unit. -/
def parseFieldsCompact : Nat → List Char → Option (DbRecord × List Char)
  | 0, _ => none
  | fuel + 1, l =>
    match parseFieldCompact l with
    | some (kv, r1) =>
      match r1 with
      | c :: r2 =>
        if c = ',' then
          (fun p => (kv :: p.1, p.2)) <$> parseFieldsCompact fuel r2
        else if c = rbrace then some ([kv], r2)
        else none
      | [] => none
    | none => none

/-- Parse one compact JSON object of scalar fields. -/
def parseRecordCompact (l : List Char) : Option (DbRecord × List Char) :=
  match l with
  | c :: rest =>
    if c = lbrace then
      match rest with
      | c2 :: rest2 =>
        if c2 = rbrace then some ([], rest2)
        else parseFieldsCompact rest.length rest
      | [] => none
    else none
  | [] => none

/-- Parse one full jsonl line back into a row: the whole line must be
consumed. -/
def parseJsonlLine (s : String) : Option DbRecord :=
  match parseRecordCompact s.data with
  | some (r, []) => some r
  | _ => none

/-- Drop an expected literal lead from the input, or fail. -/
def dropLead : List Char → List Char → Option (List Char)
  | [], l => some l
  | p :: ps, c :: cs => if c = p then dropLead ps cs else none
  | _ :: _, [] => none

/-- Parse one pretty field line: four spaces, quoted key, colon-space,
value. -/
def parsePrettyField (l : List Char) : Option ((String × Value) × List Char) :=
  match dropLead (indentSp 4) l with
  | some r0 =>
    match r0 with
    | c :: r1 =>
      if c = '"' then
        match parseStrBody r1 with
        | some (k, r2) =>
          match dropLead [':', ' '] r2 with
          | some r3 => (fun p => ((String.mk k, p.1), p.2)) <$> parseValue r3
          | none => none
        | none => none
      else none
    | [] => none
  | none => none

/-- Parse a nonempty pretty field list up to and including the `\n  `
and closing brace; one field per fuel unit. -/
def parsePrettyFields : Nat → List Char → Option (DbRecord × List Char)
  | 0, _ => none
  | fuel + 1, l =>
    match parsePrettyField l with
    | some (kv, r1) =>
      match r1 with
      | c :: r2 =>
        if c = ',' then
          match dropLead ['\n'] r2 with
          | some r3 => (fun p => (kv :: p.1, p.2)) <$> parsePrettyFields fuel r3
          | none => none
        else if c = '\n' then
          match dropLead (indentSp 2 ++ [rbrace]) r2 with
          | some r3 => some ([kv], r3)
          | none => none
        else none
      | [] => none
    | none => none

/-- Parse one pretty-printed object at array depth. -/
def parsePrettyRecord (l : List Char) : Option (DbRecord × List Char) :=
  match l with
  | c :: rest =>
    if c = lbrace then
      match rest with
      | c2 :: rest2 =>
        if c2 = rbrace then some ([], rest2)
        else if c2 = '\n' then parsePrettyFields (rest2.length + 1) rest2
        else none
      | [] => none
    else none
  | [] => none

/-- Parse the nonempty element list of a pretty array up to and including
the closing bracket; one element per fuel unit. -/
def parsePrettyElems : Nat → List Char → Option (ResultSet × List Char)
  | 0, _ => none
  | fuel + 1, l =>
    match dropLead (indentSp 2) l with
    | some r0 =>
      match parsePrettyRecord r0 with
      | some (rec1, r1) =>
        match r1 with
        | c :: r2 =>
          if c = ',' then
            match dropLead ['\n'] r2 with
            | some r3 => (fun p => (rec1 :: p.1, p.2)) <$> parsePrettyElems fuel r3
            | none => none
          else if c = '\n' then
            match dropLead [']'] r2 with
            | some r3 => some ([rec1], r3)
            | none => none
          else none
        | [] => none
      | none => none
    | none => none

/-- Parse the output shape of `JSON.stringify(data, null, 2)` back into a
result set. -/
def parsePrettyArray (l : List Char) : Option (ResultSet × List Char) :=
  match l with
  | c :: c2 :: rest =>
    if c = '[' then
      if c2 = ']' then some ([], rest)
      else if c2 = '\n' then parsePrettyElems (rest.length + 1) rest
      else none
    else none
  | _ => none

/-- Parse a full pretty-printed JSON document: the whole string must be
consumed. -/
def parseJsonDoc (s : String) : Option ResultSet :=
  match parsePrettyArray s.data with
  | some (rs, []) => some rs
  | _ => none

/-- Split a character list at newline characters; the result always has one
more chunk than there are newlines. -/
def splitNl : List Char → List (List Char)
  | [] => [[]]
  | c :: rest =>
    if c = '\n' then [] :: splitNl rest
    else
      match splitNl rest with
      | [] => [[c]]
      | h :: t => (c :: h) :: t

/-- The input does not begin with a decimal digit (so a digit run parsed
just before it stops exactly there). -/
def NotDigitStart : List Char → Prop
  | [] => True
  | c :: _ => digitVal c = none

/-! ### Concrete instances used in example statements and witnesses -/

/-- A connection whose every call succeeds with an empty result set. -/
def connStub : Connection :=
  { query := fun _ => Except.ok []
    queryParams := fun _ _ => Except.ok []
    tables := fun _ _ _ _ => Except.ok []
    columns := fun _ _ _ _ => Except.ok [] }

/-- A driver whose connect always succeeds with `connStub` and whose close
never throws. -/
def odbcStub : Odbc :=
  { connect := fun _ => Except.ok connStub, closeFails := fun _ => false }

/-- A driver whose connect always throws. -/
def odbcFailStub : Odbc :=
  { connect := fun _ => Except.error "boom", closeFails := fun _ => false }

/-- A catalog-capable connection: its table listing reports rows with a
populated `TABLE_QUALIFIER`. -/
def connWithQualifier : Connection :=
  { query := fun _ => Except.error "E"
    queryParams := fun _ _ => Except.error "E"
    tables := fun _ _ _ _ =>
      Except.ok [[("TABLE_QUALIFIER", Value.vStr "Demo"), ("TABLE_NAME", Value.vStr "T")]]
    columns := fun _ _ _ _ => Except.ok [] }

/-- A schema-only connection: its table listing reports rows in which only
the schema qualifier is populated; its columns call returns one row. -/
def connSchemaOnly : Connection :=
  { query := fun _ => Except.error "E"
    queryParams := fun _ _ => Except.error "E"
    tables := fun _ _ _ _ =>
      Except.ok [[("TABLE_SCHEM", Value.vStr "Demo"), ("TABLE_NAME", Value.vStr "T")]]
    columns := fun _ _ _ _ =>
      Except.ok [[("COLUMN_NAME", Value.vStr "CustomerID"), ("TYPE_NAME", Value.vStr "VARCHAR")]] }

/-- A connection whose table listing throws. -/
def connErroring : Connection :=
  { query := fun _ => Except.error "E"
    queryParams := fun _ _ => Except.error "E"
    tables := fun _ _ _ _ => Except.error "fail"
    columns := fun _ _ _ _ => Except.error "fail" }

/-- The two-row result set of the spec's Markdown example. -/
def mdExample : ResultSet :=
  [[("a", Value.vNum 1), ("b", Value.vStr "x")],
   [("a", Value.vNum 0), ("b", Value.vStr "y")]]

/-- The table rows of the spec's filter example. -/
def tablesExample : List DbRecord :=
  [[("TABLE_NAME", Value.vStr "Customers")],
   [("TABLE_NAME", Value.vStr "CustomerOrders")],
   [("TABLE_NAME", Value.vStr "Products")]]

/-- The JS filter predicate of the row loop: the row's `TABLE_NAME` is a
string containing `q`. -/
def tableNameMatches (q : String) (row : DbRecord) : Bool :=
  match lookupField row "TABLE_NAME" with
  | some (Value.vStr s) => jsIncludes s q
  | _ => false

/-! ### Helper lemmas: decimal numbers -/

theorem digitVal_digitChar {d : Nat} (h : d < 10) : digitVal (digitChar d) = some d := by
  have : ∀ d : Fin 10, digitVal (digitChar d.val) = some d.val := by decide
  exact this ⟨d, h⟩

theorem digitChar_ne {d : Nat} (h : d < 10) (c : Char) (hc : digitVal c = none) :
    digitChar d ≠ c := by
  intro he
  rw [← he, digitVal_digitChar h] at hc
  exact Option.noConfusion hc

theorem parseDigits_stop (acc : Nat) (l : List Char) (h : NotDigitStart l) :
    parseDigits acc l = (acc, l) := by
  cases l with
  | nil => rfl
  | cons c rest =>
    simp only [NotDigitStart] at h
    simp [parseDigits, h]

theorem parseDigits_natCharsAux (fuel : Nat) :
    ∀ n acc rest, n < fuel →
      parseDigits acc (natCharsAux fuel n ++ rest) =
        parseDigits (acc * 10 ^ (natCharsAux fuel n).length + n) rest := by
  induction fuel with
  | zero => intro n _ _ h; omega
  | succ f ih =>
    intro n acc rest h
    by_cases h10 : n < 10
    · simp only [natCharsAux, if_pos h10]
      simp [parseDigits, digitVal_digitChar h10]
    · simp only [natCharsAux, if_neg h10]
      have hdiv : n / 10 < n := Nat.div_lt_self (by omega) (by omega)
      have hf : n / 10 < f := by omega
      rw [List.append_assoc, List.singleton_append, ih (n / 10) acc _ hf]
      have hmod : n % 10 < 10 := Nat.mod_lt n (by omega)
      simp only [parseDigits, digitVal_digitChar hmod]
      congr 1
      rw [List.length_append, List.length_singleton, pow_succ, ← mul_assoc]
      generalize acc * 10 ^ (natCharsAux f (n / 10)).length = B
      omega

theorem natCharsAux_head (fuel : Nat) :
    ∀ n, n < fuel → ∃ c t, natCharsAux fuel n = c :: t ∧ ∃ d, d < 10 ∧ c = digitChar d := by
  induction fuel with
  | zero => intro n h; omega
  | succ f ih =>
    intro n h
    by_cases h10 : n < 10
    · exact ⟨digitChar n, [], by simp [natCharsAux, h10], n, h10, rfl⟩
    · have hdiv : n / 10 < n := Nat.div_lt_self (by omega) (by omega)
      obtain ⟨c, t, heq, d, hd, hcd⟩ := ih (n / 10) (by omega)
      exact ⟨c, t ++ [digitChar (n % 10)], by simp [natCharsAux, h10, heq], d, hd, hcd⟩

theorem natChars_head (n : Nat) :
    ∃ c t, natChars n = c :: t ∧ ∃ d, d < 10 ∧ c = digitChar d :=
  natCharsAux_head (n + 1) n (by omega)

theorem parseNat_natChars (n : Nat) (rest : List Char) (h : NotDigitStart rest) :
    parseNat (natChars n ++ rest) = some (n, rest) := by
  obtain ⟨c, t, heq, d, hd, hcd⟩ := natChars_head n
  have hsome : (digitVal c).isSome := by rw [hcd, digitVal_digitChar hd]; rfl
  have hlist : natChars n ++ rest = c :: (t ++ rest) := by rw [heq]; rfl
  rw [hlist]
  simp only [parseNat, hsome, if_pos]
  rw [← hlist, natChars]
  rw [parseDigits_natCharsAux (n + 1) n 0 rest (by omega), zero_mul, zero_add,
    parseDigits_stop n rest h]

/-! ### Helper lemmas: string escaping -/

theorem hexVal_encode {v : Nat} (h : v < 16) :
    hexVal (if v < 10 then Char.ofNat (48 + v) else Char.ofNat (87 + v)) = some v := by
  have : ∀ v : Fin 16,
      hexVal (if v.val < 10 then Char.ofNat (48 + v.val) else Char.ofNat (87 + v.val)) =
        some v.val := by decide
  exact this ⟨v, h⟩

theorem parseStrAux_round (fuel : Nat) :
    ∀ s rest, s.length < fuel →
      parseStrAux fuel (s.flatMap escChar ++ '"' :: rest) = some (s, rest) := by
  induction fuel with
  | zero => intro s rest h; omega
  | succ f ih =>
    intro s rest h
    cases s with
    | nil => simp [parseStrAux]
    | cons c s' =>
      have hlen : s'.length < f := by
        simp only [List.length_cons] at h; omega
      simp only [List.flatMap_cons, List.append_assoc]
      by_cases h1 : c = '"'
      · subst h1; simp [escChar, parseStrAux, ih s' rest hlen]
      · by_cases h2 : c = '\\'
        · subst h2; simp [escChar, parseStrAux, ih s' rest hlen]
        · by_cases h3 : c = Char.ofNat 8
          · subst h3; simp [escChar, parseStrAux, ih s' rest hlen]
          · by_cases h4 : c = Char.ofNat 9
            · subst h4; simp [escChar, parseStrAux, ih s' rest hlen]
            · by_cases h5 : c = Char.ofNat 10
              · subst h5; simp [escChar, parseStrAux, ih s' rest hlen]
              · by_cases h6 : c = Char.ofNat 12
                · subst h6; simp [escChar, parseStrAux, ih s' rest hlen]
                · by_cases h7 : c = Char.ofNat 13
                  · subst h7; simp [escChar, parseStrAux, ih s' rest hlen]
                  · by_cases h8 : c.toNat < 32
                    · have e0 : hexVal '0' = some 0 := by decide
                      have e1 := hexVal_encode (v := c.toNat / 16) (by omega)
                      have e2 := hexVal_encode (v := c.toNat % 16) (by omega)
                      have harg : c.toNat / 16 * 16 + c.toNat % 16 = c.toNat := by omega
                      simp only [escChar, if_neg h1, if_neg h2, if_neg h3, if_neg h4, if_neg h5,
                        if_neg h6, if_neg h7, if_pos h8, List.cons_append, List.nil_append]
                      simp [parseStrAux, e0, e1, e2, ih s' rest hlen]
                      rw [harg, Char.ofNat_toNat]
                    · simp only [escChar, if_neg h1, if_neg h2, if_neg h3, if_neg h4, if_neg h5,
                        if_neg h6, if_neg h7, if_neg h8, List.cons_append, List.nil_append]
                      simp [parseStrAux, h1, h2, ih s' rest hlen]

theorem escChar_length_pos (c : Char) : 1 ≤ (escChar c).length := by
  unfold escChar
  split_ifs <;> simp

theorem flatMap_escChar_length (s : List Char) :
    s.length ≤ (s.flatMap escChar).length := by
  induction s with
  | nil => simp
  | cons c s' ih =>
    simp only [List.flatMap_cons, List.length_cons, List.length_append]
    have := escChar_length_pos c
    omega

theorem parseStrBody_round (s : String) (rest : List Char) :
    parseStrBody (s.data.flatMap escChar ++ '"' :: rest) = some (s.data, rest) := by
  apply parseStrAux_round
  have h1 := flatMap_escChar_length s.data
  simp only [List.length_append, List.length_cons]
  omega

theorem parseIntCh_intChars (i : Int) (rest : List Char) (h : NotDigitStart rest) :
    parseIntCh (intChars i ++ rest) = some (i, rest) := by
  obtain ⟨c, t, heq, d, hd, hcd⟩ := natChars_head i.natAbs
  have hcne : c ≠ '-' := by
    rw [hcd]; exact digitChar_ne hd '-' (by decide)
  by_cases hneg : i < 0
  · have habs : -(i.natAbs : Int) = i := by omega
    simp only [intChars, if_pos hneg, List.cons_append, parseIntCh, if_pos rfl]
    rw [parseNat_natChars i.natAbs rest h]
    show some (-(i.natAbs : Int), rest) = some (i, rest)
    rw [habs]
  · have habs : (i.natAbs : Int) = i := by omega
    simp only [intChars, if_neg hneg]
    have hlist : natChars i.natAbs ++ rest = c :: (t ++ rest) := by rw [heq]; rfl
    rw [hlist]
    simp only [parseIntCh, if_neg hcne, ← hlist]
    rw [parseNat_natChars i.natAbs rest h]
    show some ((i.natAbs : Int), rest) = some (i, rest)
    rw [habs]

/-! ### Helper lemmas: scalar value round trip -/

theorem string_mk_data (s : String) : String.mk s.data = s := rfl

theorem parseValue_round (v : Value) (rest : List Char) (h : NotDigitStart rest) :
    parseValue (stringifyValue v ++ rest) = some (v, rest) := by
  have hnd : "null".data = ['n', 'u', 'l', 'l'] := rfl
  have htd : "true".data = ['t', 'r', 'u', 'e'] := rfl
  have hfd : "false".data = ['f', 'a', 'l', 's', 'e'] := rfl
  cases v with
  | vNull => simp [stringifyValue, parseValue, hnd]
  | vBool b => cases b <;> simp [stringifyValue, parseValue, hnd, htd, hfd]
  | vStr s =>
    have hq : stringifyValue (Value.vStr s) ++ rest =
        '"' :: (s.data.flatMap escChar ++ '"' :: rest) := by
      simp [stringifyValue, quoteChars]
    rw [hq]
    simp [parseValue, hnd, htd, hfd, parseStrBody_round s rest, string_mk_data]
  | vNum n =>
    obtain ⟨c, t, heq, d, hd, hcd⟩ := natChars_head n.natAbs
    have hdv : digitVal c = some d := by rw [hcd]; exact digitVal_digitChar hd
    have hcn : c ≠ 'n' := by rw [hcd]; exact digitChar_ne hd 'n' (by decide)
    have hct : c ≠ 't' := by rw [hcd]; exact digitChar_ne hd 't' (by decide)
    have hcf : c ≠ 'f' := by rw [hcd]; exact digitChar_ne hd 'f' (by decide)
    have hcq : c ≠ '"' := by rw [hcd]; exact digitChar_ne hd '"' (by decide)
    by_cases hneg : n < 0
    · have hlist : stringifyValue (Value.vNum n) ++ rest = '-' :: (natChars n.natAbs ++ rest) := by
        simp [stringifyValue, intChars, hneg]
      rw [hlist]
      have hback : ('-' : Char) :: (natChars n.natAbs ++ rest) =
          intChars n ++ rest := by simp [intChars, hneg]
      simp only [parseValue, List.take_succ_cons, List.take, hnd, htd, hfd]
      simp only [List.cons.injEq, reduceCtorEq]
      norm_num
      rw [hback, parseIntCh_intChars n rest h]
      rfl
    · have hlist : stringifyValue (Value.vNum n) ++ rest = c :: (t ++ rest) := by
        simp [stringifyValue, intChars, hneg, heq]
      rw [hlist]
      have hback : c :: (t ++ rest) = intChars n ++ rest := by
        simp [intChars, hneg, heq]
      simp only [parseValue, List.take_succ_cons, List.take, hnd, htd, hfd]
      simp only [List.cons.injEq, reduceCtorEq]
      simp only [hcn, hct, hcf, hcq, false_and, if_neg, ite_false]
      rw [hback, parseIntCh_intChars n rest h]
      rfl

/-! ### Helper lemmas: compact records and jsonl lines -/

theorem joinSep_first (sep x : List Char) (t : List (List Char)) :
    joinSep sep (x :: t) =
      x ++ (match t with | [] => [] | _ :: _ => sep ++ joinSep sep t) := by
  cases t <;> simp [joinSep]

theorem joinSep_length_ge (sep : List Char) (xss : List (List Char))
    (h : ∀ xs ∈ xss, 1 ≤ xs.length) : xss.length ≤ (joinSep sep xss).length := by
  induction xss with
  | nil => simp [joinSep]
  | cons x t ih =>
    cases t with
    | nil =>
      have := h x (by simp)
      simpa [joinSep] using this
    | cons y t' =>
      have hx := h x (by simp)
      have hrec := ih (fun xs hxs => h xs (by simp [hxs]))
      simp only [joinSep, List.length_cons, List.length_append] at hrec ⊢
      omega

theorem parseFieldCompact_round (k : String) (v : Value) (rest : List Char)
    (h : NotDigitStart rest) :
    parseFieldCompact ((quoteChars k ++ ':' :: stringifyValue v) ++ rest) =
      some ((k, v), rest) := by
  have hq : (quoteChars k ++ ':' :: stringifyValue v) ++ rest =
      '"' :: (k.data.flatMap escChar ++ '"' :: (':' :: (stringifyValue v ++ rest))) := by
    simp [quoteChars]
  rw [hq]
  simp [parseFieldCompact, parseStrBody_round, parseValue_round v rest h, string_mk_data]

theorem notDigitStart_cons (c : Char) (l : List Char) (h : digitVal c = none) :
    NotDigitStart (c :: l) := h

theorem parseFieldsCompact_round (kvs : List (String × Value)) :
    ∀ (kv : String × Value) (fuel : Nat) (rest : List Char), kvs.length < fuel →
      parseFieldsCompact fuel
        (joinSep [','] ((kv :: kvs).map (fun kv => quoteChars kv.1 ++ ':' :: stringifyValue kv.2))
          ++ rbrace :: rest) = some (kv :: kvs, rest) := by
  induction kvs with
  | nil =>
    intro kv fuel rest hf
    cases fuel with
    | zero => omega
    | succ f =>
      simp only [List.map_cons, List.map_nil, joinSep, parseFieldsCompact]
      rw [parseFieldCompact_round kv.1 kv.2 (rbrace :: rest)
        (notDigitStart_cons _ _ (by decide))]
      have hne : ¬(rbrace = ',') := by decide
      simp [hne]
  | cons kv2 kvs' ih =>
    intro kv fuel rest hf
    cases fuel with
    | zero => omega
    | succ f =>
      have hassoc :
          joinSep [',']
              ((kv :: kv2 :: kvs').map (fun kv => quoteChars kv.1 ++ ':' :: stringifyValue kv.2))
            ++ rbrace :: rest =
          (quoteChars kv.1 ++ ':' :: stringifyValue kv.2) ++
            (',' :: (joinSep [',']
                ((kv2 :: kvs').map (fun kv => quoteChars kv.1 ++ ':' :: stringifyValue kv.2))
              ++ rbrace :: rest)) := by
        simp [joinSep]
      rw [hassoc]
      simp only [parseFieldsCompact]
      rw [parseFieldCompact_round kv.1 kv.2 _ (notDigitStart_cons _ _ (by decide))]
      simp only [if_pos rfl]
      rw [ih kv2 f rest (by simpa using hf)]
      simp

theorem parseRecordCompact_round (r : DbRecord) (rest : List Char) :
    parseRecordCompact (stringifyRecordChars r ++ rest) = some (r, rest) := by
  cases r with
  | nil =>
    have h1 : ¬(rbrace = lbrace) → True := fun _ => trivial
    simp [stringifyRecordChars, joinSep, parseRecordCompact]
  | cons kv kvs =>
    have hfield : ∀ kv2 : String × Value,
        ∃ t, quoteChars kv2.1 ++ ':' :: stringifyValue kv2.2 = '"' :: t :=
      fun kv2 => ⟨kv2.1.data.flatMap escChar ++ '"' :: ':' :: stringifyValue kv2.2, by
        simp [quoteChars]⟩
    obtain ⟨t0, ht0⟩ := hfield kv
    have hjs : ∃ t, joinSep [',']
        ((kv :: kvs).map (fun kv => quoteChars kv.1 ++ ':' :: stringifyValue kv.2)) = '"' :: t := by
      rw [List.map_cons, joinSep_first, ht0]
      exact ⟨_, rfl⟩
    obtain ⟨t1, ht1⟩ := hjs
    have hlist : stringifyRecordChars (kv :: kvs) ++ rest =
        lbrace :: (joinSep [',']
            ((kv :: kvs).map (fun kv => quoteChars kv.1 ++ ':' :: stringifyValue kv.2))
          ++ rbrace :: rest) := by
      simp [stringifyRecordChars]
    have hfuel : (kv :: kvs).length ≤
        (joinSep [',']
          ((kv :: kvs).map (fun kv => quoteChars kv.1 ++ ':' :: stringifyValue kv.2))).length := by
      have := joinSep_length_ge [',']
        ((kv :: kvs).map (fun kv => quoteChars kv.1 ++ ':' :: stringifyValue kv.2))
        (by
          intro xs hxs
          simp only [List.mem_map] at hxs
          obtain ⟨kv2, _, hkv2⟩ := hxs
          obtain ⟨t2, ht2⟩ := hfield kv2
          rw [← hkv2, ht2]
          simp)
      simpa using this
    have hshape : joinSep [',']
          ((kv :: kvs).map (fun kv => quoteChars kv.1 ++ ':' :: stringifyValue kv.2))
          ++ rbrace :: rest = '"' :: (t1 ++ rbrace :: rest) := by
      rw [ht1]; rfl
    have hq : ¬(('"' : Char) = rbrace) := by decide
    rw [hlist]
    simp only [parseRecordCompact, if_pos rfl]
    rw [hshape]
    simp only [if_neg hq]
    rw [← hshape]
    apply parseFieldsCompact_round
    simp only [List.length_append, List.length_cons] at hfuel ⊢
    omega

theorem parseJsonlLine_round (r : DbRecord) :
    parseJsonlLine (String.mk (stringifyRecordChars r)) = some r := by
  have h2 : parseRecordCompact (stringifyRecordChars r) = some (r, []) := by
    have := parseRecordCompact_round r []
    simpa using this
  simp [parseJsonlLine, h2]

/-! ### Helper lemmas: newline splitting of jsonl output -/

theorem splitNl_no_nl (xs : List Char) (h : '\n' ∉ xs) : splitNl xs = [xs] := by
  induction xs with
  | nil => rfl
  | cons c rest ih =>
    have hc : ¬(c = '\n') := fun he => h (by simp [he])
    have hrest : '\n' ∉ rest := fun he => h (by simp [he])
    simp [splitNl, hc, ih hrest]

theorem splitNl_chunk (xs l : List Char) (h : '\n' ∉ xs) :
    splitNl (xs ++ '\n' :: l) = xs :: splitNl l := by
  induction xs with
  | nil => simp [splitNl]
  | cons c rest ih =>
    have hc : ¬(c = '\n') := fun he => h (by simp [he])
    have hrest : '\n' ∉ rest := fun he => h (by simp [he])
    simp [splitNl, hc, ih hrest]

theorem splitNl_joinSep (xss : List (List Char)) (h : ∀ xs ∈ xss, '\n' ∉ xs)
    (hne : xss ≠ []) : splitNl (joinSep ['\n'] xss) = xss := by
  induction xss with
  | nil => exact absurd rfl hne
  | cons x t ih =>
    cases t with
    | nil => simpa [joinSep] using splitNl_no_nl x (h x (by simp))
    | cons y t' =>
      have hx : '\n' ∉ x := h x (by simp)
      have ht : ∀ xs ∈ y :: t', '\n' ∉ xs := fun xs hxs => h xs (by simp [hxs])
      have : joinSep ['\n'] (x :: y :: t') = x ++ '\n' :: joinSep ['\n'] (y :: t') := by
        simp [joinSep]
      rw [this, splitNl_chunk x _ hx, ih ht (by simp)]

theorem nl_not_mem_escChar (c : Char) : '\n' ∉ escChar c := by
  by_cases h1 : c = '"'
  · simp [escChar, h1]
  · by_cases h2 : c = '\\'
    · simp [escChar, h1, h2]
    · by_cases h3 : c = Char.ofNat 8
      · simp [escChar, h1, h2, h3]
      · by_cases h4 : c = Char.ofNat 9
        · simp [escChar, h1, h2, h3, h4]
        · by_cases h5 : c = Char.ofNat 10
          · simp [escChar, h1, h2, h3, h4, h5]
          · by_cases h6 : c = Char.ofNat 12
            · simp [escChar, h1, h2, h3, h4, h5, h6]
            · by_cases h7 : c = Char.ofNat 13
              · simp [escChar, h1, h2, h3, h4, h5, h6, h7]
              · by_cases h8 : c.toNat < 32
                · have e1 := hexVal_encode (v := c.toNat / 16) (by omega)
                  have e2 := hexVal_encode (v := c.toNat % 16) (by omega)
                  have hn : hexVal '\n' = none := by decide
                  simp only [escChar, if_neg h1, if_neg h2, if_neg h3, if_neg h4,
                    if_neg h5, if_neg h6, if_neg h7, if_pos h8]
                  intro hmem
                  simp only [List.mem_cons, List.not_mem_nil, or_false] at hmem
                  rcases hmem with h | h | h | h | h | h
                  · exact absurd h (by decide)
                  · exact absurd h (by decide)
                  · exact absurd h (by decide)
                  · exact absurd h (by decide)
                  · rw [← h, hn] at e1
                    exact Option.noConfusion e1
                  · rw [← h, hn] at e2
                    exact Option.noConfusion e2
                · simp only [escChar, if_neg h1, if_neg h2, if_neg h3, if_neg h4,
                    if_neg h5, if_neg h6, if_neg h7, if_neg h8]
                  intro hmem
                  simp only [List.mem_singleton] at hmem
                  rw [← hmem] at h8
                  exact absurd h8 (by decide)

theorem nl_not_mem_natCharsAux (fuel : Nat) : ∀ n, '\n' ∉ natCharsAux fuel n := by
  induction fuel with
  | zero => intro n; simp [natCharsAux]
  | succ f ih =>
    intro n
    by_cases h10 : n < 10
    · simp only [natCharsAux, if_pos h10, List.mem_singleton]
      intro he
      exact (digitChar_ne h10 '\n' (by decide)) he.symm
    · simp only [natCharsAux, if_neg h10, List.mem_append, List.mem_singleton]
      rintro (h | h)
      · exact ih (n / 10) h
      · exact (digitChar_ne (Nat.mod_lt n (by omega)) '\n' (by decide)) h.symm

theorem nl_not_mem_intChars (n : Int) : '\n' ∉ intChars n := by
  unfold intChars
  split_ifs
  · simp only [List.mem_cons]
    rintro (h | h)
    · exact absurd h (by decide)
    · exact nl_not_mem_natCharsAux _ _ h
  · exact nl_not_mem_natCharsAux _ _

theorem nl_not_mem_quoteChars (s : String) : '\n' ∉ quoteChars s := by
  intro h
  simp only [quoteChars] at h
  rcases List.mem_cons.mp h with h | h
  · exact absurd h (by decide)
  · rcases List.mem_append.mp h with h | h
    · obtain ⟨c, _, hc⟩ := List.mem_flatMap.mp h
      exact nl_not_mem_escChar c hc
    · exact absurd (List.mem_singleton.mp h) (by decide)

theorem nl_not_mem_stringifyValue (v : Value) : '\n' ∉ stringifyValue v := by
  cases v with
  | vNull => decide
  | vBool b => cases b <;> decide
  | vNum n => exact nl_not_mem_intChars n
  | vStr s => exact nl_not_mem_quoteChars s

theorem mem_joinSep (sep : List Char) (xss : List (List Char)) (a : Char)
    (h : a ∈ joinSep sep xss) : a ∈ sep ∨ ∃ xs ∈ xss, a ∈ xs := by
  induction xss with
  | nil => simp [joinSep] at h
  | cons x t ih =>
    cases t with
    | nil =>
      simp only [joinSep] at h
      exact Or.inr ⟨x, by simp, h⟩
    | cons y t' =>
      simp only [joinSep, List.mem_append] at h
      rcases h with (h | h) | h
      · exact Or.inr ⟨x, by simp, h⟩
      · exact Or.inl h
      · rcases ih h with h | ⟨xs, hxs, hmem⟩
        · exact Or.inl h
        · exact Or.inr ⟨xs, by simp [List.mem_cons] at hxs ⊢; tauto, hmem⟩

theorem nl_not_mem_stringifyRecord (r : DbRecord) : '\n' ∉ stringifyRecordChars r := by
  intro h
  simp only [stringifyRecordChars] at h
  rcases List.mem_cons.mp h with h | h
  · exact absurd h (by decide)
  · rcases List.mem_append.mp h with h | h
    · rcases mem_joinSep _ _ _ h with h | ⟨xs, hxs, hmem⟩
      · exact absurd (List.mem_singleton.mp h) (by decide)
      · simp only [List.mem_map] at hxs
        obtain ⟨kv, _, hkv⟩ := hxs
        rw [← hkv] at hmem
        rcases List.mem_append.mp hmem with h2 | h2
        · exact nl_not_mem_quoteChars kv.1 h2
        · rcases List.mem_cons.mp h2 with h3 | h3
          · exact absurd h3 (by decide)
          · exact nl_not_mem_stringifyValue kv.2 h3
    · exact absurd (List.mem_singleton.mp h) (by decide)

/-! ### Helper lemmas: pretty-printed JSON round trip -/

theorem dropLead_append (p l : List Char) : dropLead p (p ++ l) = some l := by
  induction p with
  | nil => rfl
  | cons c ps ih => simp [dropLead, ih]

theorem parsePrettyField_round (kv : String × Value) (rest : List Char)
    (h : NotDigitStart rest) :
    parsePrettyField (prettyField kv ++ rest) = some ((kv.1, kv.2), rest) := by
  have hshape : prettyField kv ++ rest =
      indentSp 4 ++ ('"' :: (kv.1.data.flatMap escChar ++ '"' ::
        (':' :: ' ' :: (stringifyValue kv.2 ++ rest)))) := by
    simp [prettyField, quoteChars]
  rw [hshape]
  simp only [parsePrettyField, dropLead_append, if_pos rfl, if_true]
  rw [parseStrBody_round kv.1 (':' :: ' ' :: (stringifyValue kv.2 ++ rest))]
  have hdl : dropLead [':', ' '] (':' :: ' ' :: (stringifyValue kv.2 ++ rest)) =
      some (stringifyValue kv.2 ++ rest) := by simp [dropLead]
  simp [hdl, parseValue_round kv.2 rest h, string_mk_data]

theorem parsePrettyFields_round (kvs : List (String × Value)) :
    ∀ (kv : String × Value) (fuel : Nat) (rest : List Char), kvs.length < fuel →
      parsePrettyFields fuel
        (joinSep [',', '\n'] ((kv :: kvs).map prettyField)
          ++ '\n' :: (indentSp 2 ++ rbrace :: rest)) = some (kv :: kvs, rest) := by
  induction kvs with
  | nil =>
    intro kv fuel rest hf
    cases fuel with
    | zero => omega
    | succ f =>
      simp only [List.map_cons, List.map_nil, joinSep, parsePrettyFields]
      rw [show prettyField kv ++ '\n' :: (indentSp 2 ++ rbrace :: rest) =
          prettyField kv ++ '\n' :: (indentSp 2 ++ rbrace :: rest) from rfl]
      rw [parsePrettyField_round kv _ (notDigitStart_cons _ _ (by decide))]
      have hne : ¬(('\n' : Char) = ',') := by decide
      simp only [if_neg hne, if_pos rfl]
      rw [show (indentSp 2 ++ rbrace :: rest : List Char) =
          (indentSp 2 ++ [rbrace]) ++ rest by simp]
      rw [dropLead_append]
      simp
  | cons kv2 kvs' ih =>
    intro kv fuel rest hf
    cases fuel with
    | zero => omega
    | succ f =>
      have hassoc : joinSep [',', '\n'] ((kv :: kv2 :: kvs').map prettyField)
            ++ '\n' :: (indentSp 2 ++ rbrace :: rest) =
          prettyField kv ++ (',' :: ('\n' ::
            (joinSep [',', '\n'] ((kv2 :: kvs').map prettyField)
              ++ '\n' :: (indentSp 2 ++ rbrace :: rest)))) := by
        simp [joinSep]
      rw [hassoc]
      simp only [parsePrettyFields]
      rw [parsePrettyField_round kv _ (notDigitStart_cons _ _ (by decide))]
      simp only [if_pos rfl]
      rw [show ('\n' :: (joinSep [',', '\n'] ((kv2 :: kvs').map prettyField)
            ++ '\n' :: (indentSp 2 ++ rbrace :: rest)) : List Char) =
          ['\n'] ++ (joinSep [',', '\n'] ((kv2 :: kvs').map prettyField)
            ++ '\n' :: (indentSp 2 ++ rbrace :: rest)) from rfl]
      rw [dropLead_append]
      simp only [if_true]
      simp
      exact ih kv2 f rest (by simpa using hf)

theorem prettyField_length_pos (kv : String × Value) : 1 ≤ (prettyField kv).length := by
  simp [prettyField, indentSp]

theorem parsePrettyRecord_round (r : DbRecord) (rest : List Char) :
    parsePrettyRecord (prettyRecord r ++ rest) = some (r, rest) := by
  cases r with
  | nil => simp [prettyRecord, parsePrettyRecord]
  | cons kv kvs =>
    have hfuel : (kv :: kvs).length ≤
        (joinSep [',', '\n'] ((kv :: kvs).map prettyField)).length := by
      have := joinSep_length_ge [',', '\n'] ((kv :: kvs).map prettyField)
        (by
          intro xs hxs
          simp only [List.mem_map] at hxs
          obtain ⟨kv2, _, hkv2⟩ := hxs
          rw [← hkv2]
          exact prettyField_length_pos kv2)
      simpa using this
    have hshape : prettyRecord (kv :: kvs) ++ rest =
        lbrace :: '\n' :: (joinSep [',', '\n'] ((kv :: kvs).map prettyField)
          ++ '\n' :: (indentSp 2 ++ rbrace :: rest)) := by
      simp [prettyRecord]
    rw [hshape]
    have hne : ¬(('\n' : Char) = rbrace) := by decide
    simp only [parsePrettyRecord, if_pos rfl, if_neg hne, if_true]
    rw [parsePrettyFields_round kvs kv _ rest]
    simp only [List.length_append, List.length_cons, indentSp,
      List.length_replicate] at hfuel ⊢
    omega

theorem parsePrettyElems_round (rs : List DbRecord) :
    ∀ (r : DbRecord) (fuel : Nat) (rest : List Char), rs.length < fuel →
      parsePrettyElems fuel
        (joinSep [',', '\n'] ((r :: rs).map (fun r => indentSp 2 ++ prettyRecord r))
          ++ '\n' :: ']' :: rest) = some (r :: rs, rest) := by
  induction rs with
  | nil =>
    intro r fuel rest hf
    cases fuel with
    | zero => omega
    | succ f =>
      have hshape : joinSep [',', '\n'] ([r].map (fun r => indentSp 2 ++ prettyRecord r))
            ++ '\n' :: ']' :: rest =
          indentSp 2 ++ (prettyRecord r ++ '\n' :: ']' :: rest) := by
        simp [joinSep]
      rw [hshape]
      simp only [parsePrettyElems, dropLead_append]
      rw [parsePrettyRecord_round r ('\n' :: ']' :: rest)]
      have hne : ¬(('\n' : Char) = ',') := by decide
      simp only [if_neg hne, if_pos rfl]
      rw [show (']' :: rest : List Char) = [']'] ++ rest from rfl, dropLead_append]
      simp
  | cons r2 rs' ih =>
    intro r fuel rest hf
    cases fuel with
    | zero => omega
    | succ f =>
      have hshape : joinSep [',', '\n']
              ((r :: r2 :: rs').map (fun r => indentSp 2 ++ prettyRecord r))
            ++ '\n' :: ']' :: rest =
          indentSp 2 ++ (prettyRecord r ++ ',' :: ('\n' ::
            (joinSep [',', '\n'] ((r2 :: rs').map (fun r => indentSp 2 ++ prettyRecord r))
              ++ '\n' :: ']' :: rest))) := by
        simp [joinSep]
      rw [hshape]
      simp only [parsePrettyElems, dropLead_append]
      rw [parsePrettyRecord_round r _]
      simp only [if_pos rfl]
      rw [show ('\n' :: (joinSep [',', '\n'] ((r2 :: rs').map (fun r => indentSp 2 ++ prettyRecord r))
            ++ '\n' :: ']' :: rest) : List Char) =
          ['\n'] ++ (joinSep [',', '\n'] ((r2 :: rs').map (fun r => indentSp 2 ++ prettyRecord r))
            ++ '\n' :: ']' :: rest) from rfl]
      rw [dropLead_append]
      simp only [if_true]
      simp
      exact ih r2 f rest (by simpa using hf)

theorem parsePrettyArray_round (data : ResultSet) (rest : List Char) :
    parsePrettyArray (prettyArrayChars data ++ rest) = some (data, rest) := by
  cases data with
  | nil => simp [prettyArrayChars, parsePrettyArray]
  | cons r rs =>
    have hfuel : (r :: rs).length ≤
        (joinSep [',', '\n'] ((r :: rs).map (fun r => indentSp 2 ++ prettyRecord r))).length := by
      have := joinSep_length_ge [',', '\n']
        ((r :: rs).map (fun r => indentSp 2 ++ prettyRecord r))
        (by
          intro xs hxs
          simp only [List.mem_map] at hxs
          obtain ⟨r2, _, hr2⟩ := hxs
          rw [← hr2]
          simp [indentSp])
      simpa using this
    have hshape : prettyArrayChars (r :: rs) ++ rest =
        '[' :: '\n' :: (joinSep [',', '\n'] ((r :: rs).map (fun r => indentSp 2 ++ prettyRecord r))
          ++ '\n' :: ']' :: rest) := by
      simp [prettyArrayChars]
    rw [hshape]
    have hjne : ¬(('\n' : Char) = ']') := by decide
    simp only [parsePrettyArray, if_pos rfl, if_neg hjne, if_true]
    rw [parsePrettyElems_round rs r _ rest]
    simp only [List.length_append, List.length_cons, indentSp,
      List.length_replicate] at hfuel ⊢
    omega

theorem parseJsonDoc_round (data : ResultSet) :
    parseJsonDoc (formatJson data) = some data := by
  have h2 : parsePrettyArray (prettyArrayChars data) = some (data, []) := by
    have := parsePrettyArray_round data []
    simpa using this
  simp [parseJsonDoc, formatJson, h2]

/-! ### Claim theorems -/

/-- C1: for every tool operation (every handler is an instance of `runTool`,
as the trailing conjuncts witness for the handlers embedded here) and every
execution outcome of the body, if a connection was opened then exactly one
close call appears in the trace before the operation returns, and whether
the close call fails has no effect on the Envelope the operation produces. -/
theorem claim1_connection_lifecycle {o : Odbc} {cs : String}
    (body : Connection → Except String String) (conn : Connection)
    (hconn : o.connect cs = Except.ok conn) (cf2 : Connection → Bool) :
    closeCount (runTool o cs body).2 = 1 ∧
    (runTool o cs body).1 =
      (runTool { connect := o.connect, closeFails := cf2 } cs body).1 ∧
    (∀ q u p d f, query_database o q u p d f =
      runTool o (connStr d u p) (query_database_body q f)) ∧
    (∀ s t u p d f, describe_table o s t u p d f =
      runTool o (connStr d u p) (describe_table_body s t f)) ∧
    (∀ u p d f, virt_get_schemas o u p d f =
      runTool o (connStr d u p) (fun c => (c.query virtSchemasQuery).map (formatResult f))) := by
  refine ⟨?_, ?_, fun _ _ _ _ _ => rfl, fun _ _ _ _ _ _ => rfl, fun _ _ _ _ => rfl⟩
  · simp [runTool, hconn, closeCount, List.countP_cons]
  · simp only [runTool, hconn]

/-- Witness for C1 at a concrete driver, body, and close-failure flag. -/
theorem claim1_witness :
    closeCount (runTool odbcStub "x" (fun _ => Except.ok "t")).2 = 1 ∧
    (runTool odbcStub "x" (fun _ => Except.ok "t")).1 =
      (runTool { connect := odbcStub.connect, closeFails := fun _ => true } "x"
        (fun _ => Except.ok "t")).1 :=
  ⟨(claim1_connection_lifecycle (fun _ => Except.ok "t") connStub rfl (fun _ => true)).1,
   (claim1_connection_lifecycle (fun _ => Except.ok "t") connStub rfl (fun _ => true)).2.1⟩

/-- C2: every invocation returns exactly one Envelope with exactly one
content item; an error thrown while connecting or while the body runs is
caught at the boundary and returned as an error Envelope whose single text
item carries the serialized error, and a successful body yields the success
Envelope — `runTool` is a total function, so no error propagates out of a
handler. -/
theorem claim2_error_envelope (o : Odbc) (cs : String)
    (body : Connection → Except String String) :
    (runTool o cs body).1.content.length = 1 ∧
    (∀ e, o.connect cs = Except.error e →
      (runTool o cs body).1 =
        { content := [{ type := "text", text := "Error: " ++ e }], isError := true }) ∧
    (∀ conn e, o.connect cs = Except.ok conn → body conn = Except.error e →
      (runTool o cs body).1 =
        { content := [{ type := "text", text := "Error: " ++ e }], isError := true }) ∧
    (∀ conn t, o.connect cs = Except.ok conn → body conn = Except.ok t →
      (runTool o cs body).1 =
        { content := [{ type := "text", text := t }], isError := false }) := by
  refine ⟨?_, ?_, ?_, ?_⟩
  · cases hco : o.connect cs with
    | error e => simp [runTool, hco, errEnvelope]
    | ok conn => cases hb : body conn <;> simp [runTool, hco, hb, errEnvelope, okEnvelope]
  · intro e he; simp [runTool, he, errEnvelope]
  · intro conn e hc hb; simp [runTool, hc, hb, errEnvelope]
  · intro conn t hc hb; simp [runTool, hc, hb, okEnvelope]

/-- Witness for C2 on the three outcomes at concrete drivers and bodies. -/
theorem claim2_witness :
    (runTool odbcFailStub "x" (fun _ => Except.ok "t")).1 =
      { content := [{ type := "text", text := "Error: " ++ "boom" }], isError := true } ∧
    (runTool odbcStub "x" (fun _ => Except.error "bad")).1 =
      { content := [{ type := "text", text := "Error: " ++ "bad" }], isError := true } ∧
    (runTool odbcStub "x" (fun _ => Except.ok "t")).1 =
      { content := [{ type := "text", text := "t" }], isError := false } :=
  ⟨(claim2_error_envelope odbcFailStub "x" (fun _ => Except.ok "t")).2.1 "boom" rfl,
   (claim2_error_envelope odbcStub "x" (fun _ => Except.error "bad")).2.2.1 connStub "bad" rfl rfl,
   (claim2_error_envelope odbcStub "x" (fun _ => Except.ok "t")).2.2.2 connStub "t" rfl rfl⟩

/-- C3: in Markdown rendering a cell with a truthy value renders
`String(value)`, a cell with a falsy value (in particular the number 0)
renders empty, and on the spec's example the header comes from the first
record's keys while the second row's `a` cell is empty rather than "0". -/
theorem claim3_md_falsy_quirk :
    (∀ (row : DbRecord) (col : String) (v : Value), lookupField row col = some v →
      jsTruthy v = false → mdCell row col = "") ∧
    (∀ (row : DbRecord) (col : String) (v : Value), lookupField row col = some v →
      jsTruthy v = true → mdCell row col = jsToString v) ∧
    jsTruthy (Value.vNum 0) = false ∧
    dataToMD mdExample = "| a | b |\n| --- | --- |\n| 1 | x |\n|  | y |\n" := by
  refine ⟨?_, ?_, by decide, by decide⟩
  · intro row col v hl ht; simp [mdCell, hl, ht]
  · intro row col v hl ht; simp [mdCell, hl, ht]

/-- Witness for C3: the cell rules applied at concrete rows. -/
theorem claim3_witness :
    mdCell [("a", Value.vNum 0)] "a" = "" ∧
    mdCell [("b", Value.vStr "x")] "b" = "x" :=
  ⟨claim3_md_falsy_quirk.1 [("a", Value.vNum 0)] "a" (Value.vNum 0) (by decide) (by decide),
   claim3_md_falsy_quirk.2.1 [("b", Value.vStr "x")] "b" (Value.vStr "x") (by decide) (by decide)⟩

/-- C4: formatting the empty result set returns the fixed sentinel of each
mode without inspecting any columns: "No results found." for Markdown,
"[]" for JSON, "" for JSON-Lines. -/
theorem claim4_empty_sentinels :
    dataToMD [] = "No results found." ∧
    formatResult "md" [] = "No results found." ∧
    formatResult "json" [] = "[]" ∧
    formatResult "jsonl" [] = "" := by
  exact ⟨rfl, by decide, by decide, by decide⟩

/-- C5: for a non-empty result set the jsonl output is the records'
compact JSON forms joined by single newlines; it splits at newlines into
exactly one line per record (hence no trailing newline and no enclosing
array), and each line parses back to its record. -/
theorem claim5_jsonl_lines (R : ResultSet) (h : R ≠ []) :
    (formatJsonl R).data = joinSep ['\n'] (R.map stringifyRecordChars) ∧
    splitNl (formatJsonl R).data = R.map stringifyRecordChars ∧
    (splitNl (formatJsonl R).data).length = R.length ∧
    ∀ r ∈ R, parseJsonlLine (String.mk (stringifyRecordChars r)) = some r := by
  have hchunks : ∀ xs ∈ R.map stringifyRecordChars, '\n' ∉ xs := by
    intro xs hxs
    simp only [List.mem_map] at hxs
    obtain ⟨r, _, hr⟩ := hxs
    rw [← hr]
    exact nl_not_mem_stringifyRecord r
  have hne : R.map stringifyRecordChars ≠ [] := by simpa using h
  have hsplit : splitNl (formatJsonl R).data = R.map stringifyRecordChars :=
    splitNl_joinSep _ hchunks hne
  exact ⟨rfl, hsplit, by rw [hsplit]; simp, fun r _ => parseJsonlLine_round r⟩

/-- Witness for C5 at the concrete two-record example. -/
theorem claim5_witness :
    splitNl (formatJsonl mdExample).data = mdExample.map stringifyRecordChars ∧
    (splitNl (formatJsonl mdExample).data).length = 2 :=
  ⟨(claim5_jsonl_lines mdExample (by decide)).2.1,
   (claim5_jsonl_lines mdExample (by decide)).2.2.1⟩

/-- C6: for a non-empty result set the pretty JSON output parses back to
exactly the input, hence to an array of the same length with the same key
set per element; a null field value is encoded as the JSON literal null. -/
theorem claim6_json_roundtrip (R : ResultSet) (h : R ≠ []) :
    parseJsonDoc (formatJson R) = some R ∧
    (parseJsonDoc (formatJson R)).map List.length = some R.length ∧
    (parseJsonDoc (formatJson R)).map (List.map (List.map Prod.fst)) =
      some (R.map (List.map Prod.fst)) ∧
    stringifyValue Value.vNull = "null".data := by
  have hr := parseJsonDoc_round R
  exact ⟨hr, by rw [hr]; rfl, by rw [hr]; rfl, rfl⟩

/-- Witness for C6 at a concrete record with a null field. -/
theorem claim6_witness :
    parseJsonDoc (formatJson [[("a", Value.vNull)]]) = some [[("a", Value.vNull)]] :=
  (claim6_json_roundtrip [[("a", Value.vNull)]] (by decide)).1

/-- C7: the capability probe asks for tables with a wildcard catalog filter
and empty schema/table filters (visible in `supportsCatalogs`, which
consults the connection only at that argument tuple), answers true exactly
when the call returns at least one row whose `TABLE_QUALIFIER` is truthy
(for a string field: non-empty), and answers false on an error or an empty
response instead of propagating. -/
theorem claim7_probe (c : Connection) :
    (supportsCatalogs c = true ↔
      ∃ first rest, c.tables (some "%") (some "") (some "") none = Except.ok (first :: rest) ∧
        jsTruthyOpt (lookupField first "TABLE_QUALIFIER") = true) ∧
    (∀ e, c.tables (some "%") (some "") (some "") none = Except.error e →
      supportsCatalogs c = false) ∧
    (c.tables (some "%") (some "") (some "") none = Except.ok [] →
      supportsCatalogs c = false) ∧
    (∀ c2 : Connection, c2.tables (some "%") (some "") (some "") none =
        c.tables (some "%") (some "") (some "") none →
      supportsCatalogs c2 = supportsCatalogs c) ∧
    (∀ s, jsTruthy (Value.vStr s) = true ↔ s ≠ "") := by
  refine ⟨⟨?_, ?_⟩, ?_, ?_, ?_, ?_⟩
  · intro hs
    unfold supportsCatalogs at hs
    cases hco : c.tables (some "%") (some "") (some "") none with
    | error e => rw [hco] at hs; simp at hs
    | ok cats =>
      rw [hco] at hs
      cases cats with
      | nil => simp at hs
      | cons first rest => exact ⟨first, rest, rfl, hs⟩
  · rintro ⟨first, rest, hco, ht⟩
    unfold supportsCatalogs
    rw [hco]
    exact ht
  · intro e he; unfold supportsCatalogs; rw [he]
  · intro he; unfold supportsCatalogs; rw [he]
  · intro c2 hsame; unfold supportsCatalogs; rw [hsame]
  · intro s; simp [jsTruthy]

/-- Witness for C7 on the three simulated drivers of the spec. -/
theorem claim7_witness :
    supportsCatalogs connWithQualifier = true ∧
    supportsCatalogs connErroring = false ∧
    supportsCatalogs connSchemaOnly = false :=
  ⟨(claim7_probe connWithQualifier).1.mpr
      ⟨[("TABLE_QUALIFIER", Value.vStr "Demo"), ("TABLE_NAME", Value.vStr "T")], [],
        rfl, by decide⟩,
   (claim7_probe connErroring).2.1 "fail" rfl,
   by decide⟩

/-- C8: the filter-tables row loop keeps exactly the fetched rows whose
`TABLE_NAME` contains q as a case-sensitive substring, in the driver's
order (it is `List.filter` on the fetched list when every row carries a
string `TABLE_NAME`); a missing schema filter defaults to the wildcard
(as does the empty string, which JS `||` also replaces); and on the spec's
example exactly Customers and CustomerOrders survive, in that order. -/
theorem tablesExample_names :
    ∀ row ∈ tablesExample, ∃ s, lookupField row "TABLE_NAME" = some (Value.vStr s) := by
  intro row hrow
  simp only [tablesExample, List.mem_cons, List.not_mem_nil, or_false] at hrow
  rcases hrow with h | h | h <;> subst h <;> exact ⟨_, rfl⟩

theorem claim8_filter_tables (q : String) (data : List DbRecord)
    (h : ∀ row ∈ data, ∃ s, lookupField row "TABLE_NAME" = some (Value.vStr s)) :
    filterTablesByName q data = Except.ok (data.filter (tableNameMatches q)) ∧
    jsOrWildcard none = "%" ∧
    jsOrWildcard (some "") = "%" ∧
    jsOrWildcard (some "Demo") = "Demo" ∧
    filterTablesByName "Custom" tablesExample =
      Except.ok [[("TABLE_NAME", Value.vStr "Customers")],
                 [("TABLE_NAME", Value.vStr "CustomerOrders")]] := by
  refine ⟨?_, rfl, by decide, by decide, by rfl⟩
  induction data with
  | nil => simp [filterTablesByName]
  | cons row rest ih =>
    obtain ⟨s, hs⟩ := h row (by simp)
    have hrest := ih (fun r hr => h r (by simp [hr]))
    have hname : getTableName row = Except.ok s := by simp [getTableName, hs]
    simp only [filterTablesByName, hname, hrest, List.filter_cons, tableNameMatches, hs]
    cases hinc : jsIncludes s q
    · simp only [hinc, Bool.false_eq_true, if_false]
      exact congrArg Except.ok (if_neg (by simp [hinc]))
    · simp only [hinc, if_true]
      exact congrArg Except.ok (if_pos hinc)

/-- Witness for C8 at the spec's example list. -/
theorem claim8_witness :
    filterTablesByName "Custom" tablesExample =
      Except.ok (tablesExample.filter (tableNameMatches "Custom")) :=
  (claim8_filter_tables "Custom" tablesExample tablesExample_names).1

/-- C9: the describe-table body places the caller's schema argument in the
catalog slot of the columns call when the probe reports catalog support and
in the schema slot otherwise (the other slot null), and the returned column
rows reach the Envelope unmodified apart from formatting. -/
theorem claim9_describe_table (o : Odbc) (schema table user password dsn format : String)
    (c : Connection) (hc : o.connect (connStr dsn user password) = Except.ok c) :
    (supportsCatalogs c = false →
      describe_table_body schema table format c =
        (c.columns none (some schema) (some table) none).map (formatResult format)) ∧
    (supportsCatalogs c = true →
      describe_table_body schema table format c =
        (c.columns (some schema) none (some table) none).map (formatResult format)) ∧
    (∀ rows, supportsCatalogs c = false →
      c.columns none (some schema) (some table) none = Except.ok rows →
      (describe_table o schema table user password dsn format).1 =
        okEnvelope (formatResult format rows)) := by
  refine ⟨?_, ?_, ?_⟩
  · intro hprobe; simp [describe_table_body, hprobe]
  · intro hprobe; simp [describe_table_body, hprobe]
  · intro rows hprobe hcols
    simp [describe_table, runTool, hc, describe_table_body, hprobe, hcols, Except.map]

/-- Witness for C9 on a schema-only connection with one column row. -/
theorem claim9_witness :
    (describe_table { connect := fun _ => Except.ok connSchemaOnly, closeFails := fun _ => false }
        "Demo" "Customers" "demo" "demo" "VOS" "json").1 =
      okEnvelope (formatResult "json"
        [[("COLUMN_NAME", Value.vStr "CustomerID"), ("TYPE_NAME", Value.vStr "VARCHAR")]]) :=
  (claim9_describe_table
      { connect := fun _ => Except.ok connSchemaOnly, closeFails := fun _ => false }
      "Demo" "Customers" "demo" "demo" "VOS" "json" connSchemaOnly rfl).2.2
    [[("COLUMN_NAME", Value.vStr "CustomerID"), ("TYPE_NAME", Value.vStr "VARCHAR")]]
    (by decide) rfl

/-- C10: the shared format dispatch treats any selector other than exactly
"jsonl" or exactly "md" as json, with no validation error; in particular
"JSON", "Markdown" and arbitrary strings fall through to the pretty JSON
encoding. -/
theorem claim10_format_fallthrough (format : String) (h1 : format ≠ "jsonl")
    (h2 : format ≠ "md") (data : ResultSet) :
    formatResult format data = formatJson data := by
  simp [formatResult, h1, h2]

/-- Witness for C10 at the uppercase selector "JSON". -/
theorem claim10_witness :
    formatResult "JSON" [[("a", Value.vNum 7)]] = formatJson [[("a", Value.vNum 7)]] :=
  claim10_format_fallthrough "JSON" (by decide) (by decide) [[("a", Value.vNum 7)]]

end McpOdbc
